import Mathlib

/-!
Verification of the granada HTTP session layer: a shallow embedding of
`granada::http::session::Session` (session.cc / session.h), its variants
`SimpleSession` (simple_session.cc) and `StorageSession` (storage_session.cc),
the concurrent store `SharedMapSessionHandler` (shared_map_session_handler.cc),
and the query-string token extraction used by `Session::LoadSession`
(session.cc together with the split utility whose use is also visible in
`parser.cpp`).

The store (`std::unordered_map<std::string, std::shared_ptr<Session>>`) is
embedded as an association list with at-most-one-entry-per-key discipline.
Machine time (`std::time_t`, `long`) is embedded as `Int`; the current time
`std::time(nullptr)` is passed explicitly as a `now` parameter.  The nonce
generator is embedded as an explicit list of tokens it will produce, consumed
one per `GenerateToken()` call; `Session::Open`'s unbounded collision retry
recurses on that list and returns `none` when it is exhausted.
-/

namespace Granada

/-- Modelled from the spec: `granada/defaults.h` is not among the sources.
`entity_keys` are the configuration key names of the §6 table (the same
constant is passed to `GetProperty` in `Session::LoadProperties`, so it is the
key string itself), and the comparison constants for the token-support enum
`cookie | query | json`. -/
def entity_keys.session_token_support : String := "session_token_support"

/-- Modelled from the spec: token-support enum value for the cookie flow. -/
def entity_keys.session_cookie : String := "cookie"

/-- Modelled from the spec: token-support enum value for the query flow. -/
def entity_keys.session_query : String := "query"

/-- Modelled from the spec: token-support enum value for the body-json flow. -/
def entity_keys.session_json : String := "json"

/-- Modelled from the spec: header name used by `Session::Open(response)`. -/
def entity_keys.session_set_cookie : String := "Set-Cookie"

/-- Modelled from the spec: `default_strings::session_second_token_support`,
the context-dependent `query` fallback of the §6 configuration table. -/
def default_strings.session_second_token_support : String := "query"

/-- Session entity (session.h): token, last update time, token label,
token support and timeout, plus the roles collaborator (embedded as the
list of role names the `Roles` store holds for this session). -/
structure Session where
  token : String
  update_time : Int
  token_label : String
  session_token_support : String
  session_timeout : Int
  roles : List String
deriving DecidableEq

/-- The shared token-to-snapshot map of `SharedMapSessionHandler`. -/
abbrev Store := List (String × Session)

/-- `sessions_->find(token)` followed by taking the mapped session. -/
def storeFind (st : Store) (token : String) : Option Session :=
  (st.find? (fun p => p.1 == token)).map (fun p => p.2)

/-- `SharedMapSessionHandler::SessionExists` (shared_map_session_handler.cc):
empty tokens are never found; otherwise a map lookup. -/
def SessionExists (st : Store) (token : String) : Bool :=
  if token.isEmpty then false else (storeFind st token).isSome

/-- `SharedMapSessionHandler::SaveSession`: skip sessions with empty token,
otherwise `(*sessions_)[token] = session` (replace the entry if the key is
present, insert it otherwise). -/
def SaveSession (st : Store) (s : Session) : Store :=
  if s.token.isEmpty then st
  else if (st.find? (fun p => p.1 == s.token)).isSome then
    st.map (fun p => if p.1 == s.token then (s.token, s) else p)
  else st ++ [(s.token, s)]

/-- `SharedMapSessionHandler::DeleteSession`: skip sessions with empty token,
otherwise `sessions_->erase(token)`. -/
def DeleteSession (st : Store) (s : Session) : Store :=
  if s.token.isEmpty then st else st.filter (fun p => !(p.1 == s.token))

/-- Modelled from the spec: `granada::util::time::is_timedout`
(granada/util/time.h is not among the sources); §4.1 gives its contract:
`(now - update_time) > session_timeout + extra`. -/
def util.time.is_timedout (update_time timeout extra now : Int) : Bool :=
  now - update_time > timeout + extra

/-- `Session::IsTimedOut(extra_seconds)` (session.cc): a negative
`session_timeout_` never times out. -/
def Session.IsTimedOut (s : Session) (extra : Int) (now : Int) : Bool :=
  if s.session_timeout < 0 then false
  else util.time.is_timedout s.update_time s.session_timeout extra now

/-- `Session::IsValid` (session.cc): `!IsTimedOut()`, i.e. extra time 0. -/
def Session.IsValid (s : Session) (now : Int) : Bool :=
  !(s.IsTimedOut 0 now)

/-- `Session::IsGarbage` (session.cc): `!IsValid()`. -/
def Session.IsGarbage (s : Session) (now : Int) : Bool :=
  !(s.IsValid now)

/-- `Session::Update` (session.cc): sets `update_time_ = std::time(nullptr)`;
the `session_handler()->SaveSession(this)` line is commented out in the
source, so the store is returned unchanged. -/
def Session.Update (s : Session) (st : Store) (now : Int) : Session × Store :=
  ({s with update_time := now}, st)

/-- Observable side effects of `Session::Close` on the collaborators:
the close callbacks are invoked with the serialized (`to_json`) session
state, then the roles collaborator removes all roles. -/
inductive SessionEvent where
  | callbacksCalled (snapshot : Session)
  | rolesCleared
deriving DecidableEq

/-- `Session::Close` (session.cc): serialize the current state, call all
close callbacks with it, remove all roles, then ask the handler to delete
the entry under this session's token. -/
def Session.Close (s : Session) (st : Store) : Session × Store × List SessionEvent :=
  ({s with roles := []}, DeleteSession st s,
   [SessionEvent.callbacksCalled s, SessionEvent.rolesCleared])

/-- `SimpleSession::Update` (simple_session.cc): sets the update time, makes
a full copy of itself and saves that snapshot through the handler. -/
def SimpleSession.Update (s : Session) (st : Store) (now : Int) : Session × Store :=
  ({s with update_time := now}, SaveSession st {s with update_time := now})

/-- `Session::Open` (session.cc) as executed by a `SimpleSession` (the
`Update()` virtual call dispatches to `SimpleSession::Update`): close any
prior association, generate a token, and on an existence collision repeat
the whole opening process; the generator is the explicit token list, and
`none` means it was exhausted (the source recursion is unbounded). -/
def SimpleSession.Open (s : Session) (st : Store) (now : Int) :
    List String → Option (Session × Store)
  | [] => none
  | g :: rest =>
    if SessionExists (Session.Close s st).2.1 g then
      SimpleSession.Open {(Session.Close s st).1 with token := g}
        (Session.Close s st).2.1 now rest
    else
      some (SimpleSession.Update {(Session.Close s st).1 with token := g}
        (Session.Close s st).2.1 now)

/-- `StorageSession` (storage_session.cc): the base session plus the
per-session key/value cache collaborator. -/
structure StorageSession where
  session : Session
  cache : List (String × String)
deriving DecidableEq

/-- The dedicated store instance of the `StorageSession` variant. -/
abbrev StorageStore := List (String × StorageSession)

/-- Map lookup in the `StorageSession` variant's store. -/
def storageFind (st : StorageStore) (token : String) : Option StorageSession :=
  (st.find? (fun p => p.1 == token)).map (fun p => p.2)

/-- `SaveSession` of the handler instance owned by `StorageSession`. -/
def StorageSaveSession (st : StorageStore) (s : StorageSession) : StorageStore :=
  if s.session.token.isEmpty then st
  else if (st.find? (fun p => p.1 == s.session.token)).isSome then
    st.map (fun p => if p.1 == s.session.token then (s.session.token, s) else p)
  else st ++ [(s.session.token, s)]

/-- `StorageSession::Update` (storage_session.cc): sets the update time and
saves a full copy of itself (cache included) through its handler. -/
def StorageSession.Update (s : StorageSession) (st : StorageStore) (now : Int) :
    StorageSession × StorageStore :=
  ({s with session := {s.session with update_time := now}},
   StorageSaveSession st {s with session := {s.session with update_time := now}})

/-- `SharedMapSessionHandler::LoadSession(token, virgin)`: look the token up
and copy the found session into the virgin instance (`virgin->set(session)`)
only when the found snapshot is valid. -/
def SharedMapSessionHandler.LoadSession (st : Store) (token : String)
    (virgin : Session) (now : Int) : Session :=
  if token.isEmpty then virgin
  else
    match storeFind st token with
    | some sess => if sess.IsValid now then sess else virgin
    | none => virgin

/-- `Session::LoadSession(const std::string&)` (session.cc): delegate to the
handler, then succeed (and `Update()`) exactly when the instance ends up with
a non-empty token. -/
def Session.LoadSessionByToken (s : Session) (st : Store) (token : String)
    (now : Int) : Bool × Session × Store :=
  if token.isEmpty then (false, s, st)
  else
    if (SharedMapSessionHandler.LoadSession st token s now).token.isEmpty then
      (false, SharedMapSessionHandler.LoadSession st token s now, st)
    else
      (true,
       (Session.Update (SharedMapSessionHandler.LoadSession st token s now) st now).1,
       (Session.Update (SharedMapSessionHandler.LoadSession st token s now) st now).2)

/-- `SharedMapSessionHandler::CleanSessions()` (one sweep): under the lock,
collect the entries whose session is garbage; after releasing the lock,
`Close()` each collected session. -/
def SharedMapSessionHandler.CleanSessions (st : Store) (now : Int) : Store :=
  (st.filter (fun p => p.2.IsGarbage now)).foldl
    (fun acc p => (Session.Close p.2 acc).2.1) st

/-- Plain character-level split: `n` delimiters yield `n + 1` pieces. -/
def splitStd (delim : Char) : List Char → List (List Char)
  | [] => [[]]
  | c :: cs =>
    match splitStd delim cs with
    | [] => [[c]]
    | p :: ps => if c = delim then [] :: p :: ps else (c :: p) :: ps

/-- Modelled from the spec: `granada::util::string::split`
(granada/util/string.h is not among the sources), the `std::getline`-driven
tokenizer: an empty string yields no pieces, and a trailing delimiter yields
no trailing empty piece (`parser.cpp`'s `ParseQueryString` applies the same
helper and then guards `key_and_value.size() > 1`, matching this shape). -/
def granadaSplitChars (delim : Char) (cs : List Char) : List (List Char) :=
  if cs = [] then []
  else if cs.getLast? = some delim then (splitStd delim cs).dropLast
  else splitStd delim cs

/-- `granada::util::string::split` lifted to `String`. -/
def granadaSplit (s : String) (delim : Char) : List String :=
  (granadaSplitChars delim s.data).map (fun cs => String.mk cs)

/-- The `while (len--)` loop of `Session::LoadSession(http_request&)`
(session.cc, query branch): walk the `&`-separated pieces from the last one
to the first, split each on `=`, and return the value of the first piece
(starting from the end) whose key equals the token label and which actually
has a value. -/
def scanQueryPairsFromEnd (label : String) : List String → Option String
  | [] => none
  | item :: rest =>
    match scanQueryPairsFromEnd label rest with
    | some tok => some tok
    | none =>
      match granadaSplit item '=' with
      | k :: v :: _ => if k == label then some v else none
      | _ => none

/-- Token extraction of the query flow of `Session::LoadSession(http_request&)`
(session.cc): split the raw query string on `&`, then scan from the end.
No percent-decoding is applied anywhere on this path. -/
def extractTokenFromQuery (query : String) (label : String) : Option String :=
  scanQueryPairsFromEnd label (granadaSplit query '&')

/-- Hexadecimal digit value, for percent-decoding. -/
def hexVal (c : Char) : Option Nat :=
  if '0' ≤ c ∧ c ≤ '9' then some (c.toNat - '0'.toNat)
  else if 'a' ≤ c ∧ c ≤ 'f' then some (c.toNat - 'a'.toNat + 10)
  else if 'A' ≤ c ∧ c ≤ 'F' then some (c.toNat - 'A'.toNat + 10)
  else none

/-- Modelled from the spec: percent-decoding (`web::uri::decode`), which §6
says the query parameters go through.  In the sources it appears only in
`parser.cpp`'s `ParseQueryString`; `Session::LoadSession(http_request&)`
never applies it. -/
def percentDecodeChars : List Char → List Char
  | [] => []
  | '%' :: a :: b :: rest =>
    match hexVal a, hexVal b with
    | some ha, some hb => Char.ofNat (16 * ha + hb) :: percentDecodeChars rest
    | _, _ => '%' :: percentDecodeChars (a :: b :: rest)
  | c :: rest => c :: percentDecodeChars rest

/-- Percent-decoding lifted to `String`. -/
def percentDecode (s : String) : String :=
  String.mk (percentDecodeChars s.data)

/-- The parts of an HTTP request the session layer consumes: the parsed
cookie map (the cookie-header parsing of `parser.cpp` is a collaborator),
the raw query string of `request.relative_uri().query()`, and the JSON body
viewed as an optional object whose string-valued fields are listed
(`none` when the body is not a JSON object or extraction fails). -/
structure HttpRequest where
  cookies : List (String × String)
  query : String
  jsonFields : Option (List (String × String))
deriving DecidableEq

/-- `Session::DEFAULT_SESSIONS_TOKEN_SUPPORT` (session.cc line 31): note the
first element is `entity_keys::session_token_support`, the configuration KEY
name, not a member of the `cookie | query | json` enum. -/
def Session.DEFAULT_SESSIONS_TOKEN_SUPPORT : List String :=
  [entity_keys.session_token_support, default_strings.session_second_token_support]

/-- `Session::LoadSession(http_request&)` (session.cc): fall back to
`DEFAULT_SESSIONS_TOKEN_SUPPORT[1]` when the configured support is empty,
then try the json branch or the query branch; every failure path returns
`false` with the (possibly support-mutated) instance otherwise untouched. -/
def Session.LoadSessionFromRequest (s : Session) (st : Store) (req : HttpRequest)
    (now : Int) : Bool × Session × Store :=
  let s1 := if s.session_token_support.isEmpty
    then {s with session_token_support :=
           Session.DEFAULT_SESSIONS_TOKEN_SUPPORT.get ⟨1, by decide⟩}
    else s
  if s1.session_token_support == entity_keys.session_json then
    match req.jsonFields with
    | some fields =>
      match fields.find? (fun p => p.1 == s1.token_label) with
      | some p => Session.LoadSessionByToken s1 st p.2 now
      | none => (false, s1, st)
    | none => (false, s1, st)
  else if s1.session_token_support == entity_keys.session_query then
    match extractTokenFromQuery req.query s1.token_label with
    | some tok => Session.LoadSessionByToken s1 st tok now
    | none => (false, s1, st)
  else (false, s1, st)

/-- `Session::Open(http_response&)` (session.cc), for a `SimpleSession`:
open, then advertise the token as a `Set-Cookie` header when the token
support is `cookie`.  The returned list holds the added response headers. -/
def Session.OpenWithResponse (s : Session) (st : Store) (now : Int)
    (gens : List String) : Option (Session × Store × List (String × String)) :=
  match SimpleSession.Open s st now gens with
  | none => none
  | some (s1, st1) =>
    if s1.session_token_support == entity_keys.session_cookie then
      some (s1, st1,
        [(entity_keys.session_set_cookie, s1.token_label ++ "=" ++ s1.token ++ "; path=/")])
    else some (s1, st1, [])

/-- `Session::LoadSession(http_request&, http_response&)` (session.cc):
fall back to `DEFAULT_SESSIONS_TOKEN_SUPPORT[0]` when the configured support
is empty; in the cookie branch look the token label up in the parsed cookies,
try to load, open a fresh session on failure, and always report `true`;
otherwise delegate to `LoadSession(http_request&)`.  The result is `none`
only when `Open` exhausts the token generator. -/
def Session.LoadSessionWithResponse (s : Session) (st : Store) (req : HttpRequest)
    (now : Int) (gens : List String) :
    Option (Bool × Session × Store × List (String × String)) :=
  let s1 := if s.session_token_support.isEmpty
    then {s with session_token_support :=
           Session.DEFAULT_SESSIONS_TOKEN_SUPPORT.get ⟨0, by decide⟩}
    else s
  if s1.session_token_support == entity_keys.session_cookie then
    match req.cookies.find? (fun p => p.1 == s1.token_label) with
    | some c =>
      match Session.LoadSessionByToken s1 st c.2 now with
      | (true, s2, st2) => some (true, s2, st2, [])
      | (false, s2, st2) =>
        (Session.OpenWithResponse s2 st2 now gens).map
          (fun r => (true, r.1, r.2.1, r.2.2))
    | none =>
      (Session.OpenWithResponse s1 st now gens).map
        (fun r => (true, r.1, r.2.1, r.2.2))
  else
    match Session.LoadSessionFromRequest s1 st req now with
    | (b, s2, st2) => some (b, s2, st2, [])

/-- Well-formed query pair for the last-occurrence theorem: the key and the
value contain neither separator, and the value is non-empty (a pair without
a value never passes the `key_and_value.size() > 1` guard). -/
def QueryPairWF (p : String × String) : Prop :=
  '&' ∉ p.1.data ∧ '=' ∉ p.1.data ∧ '&' ∉ p.2.data ∧ '=' ∉ p.2.data ∧ p.2 ≠ ""

instance (p : String × String) : Decidable (QueryPairWF p) := by
  unfold QueryPairWF
  infer_instance

/-- A well-formed query string assembled from key-value pairs. -/
def queryOfPairs : List (String × String) → String
  | [] => ""
  | [(k, v)] => k ++ "=" ++ v
  | (k, v) :: p :: rest => k ++ "=" ++ v ++ "&" ++ queryOfPairs (p :: rest)

/-- Character-level view of joining pieces with a delimiter (the inverse
shape of the split, used to reason about `queryOfPairs`). -/
def joinAmp (d : Char) : List (List Char) → List Char
  | [] => []
  | [x] => x
  | x :: y :: rest => x ++ d :: joinAmp d (y :: rest)

/-- The invariant of the shared store (§3): every reachable entry is keyed
by the non-empty token of the snapshot it holds, and keys are unique. -/
def StoreWF (st : Store) : Prop :=
  (∀ p ∈ st, p.1 ≠ "" ∧ p.2.token = p.1) ∧ (st.map (fun p => p.1)).Nodup

instance (st : Store) : Decidable (StoreWF st) := by
  unfold StoreWF
  infer_instance

instance : DecidableEq (Session × Store × List (String × String)) :=
  inferInstance

instance : DecidableEq (Bool × Session × Store × List (String × String)) :=
  inferInstance

/-- Concrete example data (used by witnesses and counterexamples below):
a stored session under token "X" with a negative timeout, so never stale. -/
def exVictim : Session :=
  { token := "X", update_time := 100, token_label := "token",
    session_token_support := "", session_timeout := -1, roles := [] }

/-- A fresh, not-yet-opened session instance. -/
def exFresh : Session :=
  { token := "", update_time := 0, token_label := "token",
    session_token_support := "", session_timeout := 100, roles := [] }

/-- A store holding the single session `exVictim` under its token. -/
def exStore : Store := [("X", exVictim)]

/-- The session produced by the collision run of `SimpleSession.Open` on
`exFresh` over `exStore` with generated tokens "X" then "Y" at time 100. -/
def exOpened : Session :=
  { token := "Y", update_time := 100, token_label := "token",
    session_token_support := "", session_timeout := 100, roles := [] }

/-- The store produced by that same collision run. -/
def exOpenedStore : Store := [("Y", exOpened)]

/-- A session last updated 300 seconds before time 400 with a 200 second
timeout: garbage at time 400. -/
def exStale : Session :=
  { token := "Z", update_time := 100, token_label := "token",
    session_token_support := "", session_timeout := 200, roles := [] }

/-- A later snapshot of `exStale` under the same token. -/
def exStale2 : Session := { exStale with update_time := 500 }

/-- A store holding one never-stale and one stale entry. -/
def exSweepStore : Store := [("X", exVictim), ("Z", exStale)]

/-- A session configured for the query flow with token label "b". -/
def exQuerySessionB : Session :=
  { token := "", update_time := 0, token_label := "b",
    session_token_support := entity_keys.session_query, session_timeout := 100,
    roles := [] }

/-- A session configured for the query flow with token label "c". -/
def exQuerySessionC : Session :=
  { token := "", update_time := 0, token_label := "c",
    session_token_support := entity_keys.session_query, session_timeout := 100,
    roles := [] }

/-- `exFresh` with the token support explicitly set to `cookie`. -/
def exCookieSession : Session :=
  { exFresh with session_token_support := entity_keys.session_cookie }

/-- A request carrying a session cookie under label "token" and the spec's
example query string. -/
def exRequest : HttpRequest :=
  { cookies := [("token", "X")], query := "a=1&b=2", jsonFields := none }

/-- A `StorageSession` over `exStale` with some cached payload. -/
def exStorage : StorageSession :=
  { session := exStale, cache := [("color", "blue")] }

/-- Query pairs in which the key "b" occurs twice. -/
def exPairs : List (String × String) := [("b", "1"), ("a", "2"), ("b", "3")]

theorem isEmpty_false_of_ne {s : String} (h : s ≠ "") : s.isEmpty = false := by
  cases hs : s.isEmpty
  · rfl
  · exact absurd ((String.isEmpty_iff s).mp hs) h

theorem storeFind_nil (t : String) : storeFind [] t = none := rfl

theorem storeFind_cons (p : String × Session) (l : Store) (t : String) :
    storeFind (p :: l) t = if (p.1 == t) = true then some p.2 else storeFind l t := by
  unfold storeFind
  cases h : (p.1 == t) <;> simp [List.find?_cons, h]

theorem storeFind_delete_empty (st : Store) (s : Session) (hs : s.token = "") :
    DeleteSession st s = st := by
  unfold DeleteSession
  rw [hs]
  rfl

theorem storeFind_delete_self (st : Store) (s : Session) (hs : s.token ≠ "") :
    storeFind (DeleteSession st s) s.token = none := by
  unfold DeleteSession
  rw [isEmpty_false_of_ne hs, if_neg Bool.false_ne_true]
  induction st with
  | nil => rfl
  | cons p l ih =>
    cases hp : (p.1 == s.token) with
    | true => simpa [List.filter_cons, hp] using ih
    | false => simpa [List.filter_cons, hp, storeFind_cons] using ih

theorem storeFind_delete_ne (st : Store) (s : Session) (t : String) (ht : t ≠ s.token) :
    storeFind (DeleteSession st s) t = storeFind st t := by
  unfold DeleteSession
  by_cases hs : s.token.isEmpty
  · rw [if_pos hs]
  · rw [if_neg hs]
    induction st with
    | nil => rfl
    | cons p l ih =>
      cases hp : (p.1 == s.token) with
      | true =>
        have hmiss : (p.1 == t) = false := by
          rw [beq_eq_false_iff_ne, beq_iff_eq.mp hp]
          exact fun h => ht h.symm
        simpa [List.filter_cons, hp, storeFind_cons, hmiss] using ih
      | false =>
        cases hpt : (p.1 == t) with
        | true => simp [List.filter_cons, hp, storeFind_cons, hpt]
        | false => simpa [List.filter_cons, hp, storeFind_cons, hpt] using ih

theorem storeFind_delete_none (st : Store) (s : Session) (t : String)
    (h : storeFind st t = none) : storeFind (DeleteSession st s) t = none := by
  by_cases hs : s.token = ""
  · rw [storeFind_delete_empty st s hs]
    exact h
  · by_cases ht : t = s.token
    · rw [ht]
      exact storeFind_delete_self st s hs
    · rw [storeFind_delete_ne st s t ht]
      exact h

theorem storeFind_save_empty (st : Store) (s : Session) (hs : s.token = "") :
    SaveSession st s = st := by
  unfold SaveSession
  rw [hs]
  rfl

theorem find?_map_replace_self (l : Store) (tok : String) (s : Session)
    (hpres : (l.find? (fun p => p.1 == tok)).isSome = true) :
    (l.map (fun p => if p.1 == tok then (tok, s) else p)).find? (fun p => p.1 == tok)
      = some (tok, s) := by
  induction l with
  | nil => simp at hpres
  | cons p l ih =>
    rw [List.map_cons]
    by_cases hp : p.1 = tok
    · have hb : (p.1 == tok) = true := beq_iff_eq.mpr hp
      have hf : (if p.1 == tok then (tok, s) else p) = (tok, s) := by simp [hb]
      rw [hf, List.find?_cons]
      simp
    · have hb : (p.1 == tok) = false := beq_eq_false_iff_ne.mpr hp
      have hf : (if p.1 == tok then (tok, s) else p) = p := by simp [hb]
      have hpres2 : (l.find? (fun p => p.1 == tok)).isSome = true := by
        rw [List.find?_cons] at hpres
        simpa [hb] using hpres
      rw [hf, List.find?_cons, hb]
      exact ih hpres2

theorem find?_map_replace_ne (l : Store) (tok t : String) (s : Session) (ht : t ≠ tok) :
    (l.map (fun p => if p.1 == tok then (tok, s) else p)).find? (fun p => p.1 == t)
      = l.find? (fun p => p.1 == t) := by
  induction l with
  | nil => rfl
  | cons p l ih =>
    rw [List.map_cons]
    by_cases hp : p.1 = tok
    · have hb : (p.1 == tok) = true := beq_iff_eq.mpr hp
      have h2 : (tok == t) = false := by
        rw [beq_eq_false_iff_ne]
        exact fun h => ht h.symm
      have h3 : (p.1 == t) = false := by
        rw [beq_eq_false_iff_ne, hp]
        exact fun h => ht h.symm
      have hf : (if p.1 == tok then (tok, s) else p) = (tok, s) := by simp [hb]
      rw [hf, List.find?_cons, List.find?_cons, h2, h3]
      exact ih
    · have hb : (p.1 == tok) = false := beq_eq_false_iff_ne.mpr hp
      have hf : (if p.1 == tok then (tok, s) else p) = p := by simp [hb]
      rw [hf, List.find?_cons, List.find?_cons]
      cases hpt : (p.1 == t) with
      | true => rfl
      | false => exact ih

theorem storeFind_save_self (st : Store) (s : Session) (hs : s.token ≠ "") :
    storeFind (SaveSession st s) s.token = some s := by
  unfold SaveSession
  rw [isEmpty_false_of_ne hs, if_neg Bool.false_ne_true]
  by_cases hpres : (st.find? (fun p => p.1 == s.token)).isSome = true
  · rw [if_pos hpres]
    unfold storeFind
    rw [find?_map_replace_self st s.token s hpres]
    rfl
  · rw [if_neg hpres]
    unfold storeFind
    rw [List.find?_append, Option.not_isSome_iff_eq_none.mp hpres]
    simp [List.find?_cons]

theorem storeFind_save_ne (st : Store) (s : Session) (t : String) (ht : t ≠ s.token) :
    storeFind (SaveSession st s) t = storeFind st t := by
  unfold SaveSession
  by_cases hs : s.token.isEmpty
  · rw [if_pos hs]
  · rw [if_neg hs]
    by_cases hpres : (st.find? (fun p => p.1 == s.token)).isSome = true
    · rw [if_pos hpres]
      unfold storeFind
      rw [find?_map_replace_ne st s.token t s ht]
    · rw [if_neg hpres]
      unfold storeFind
      rw [List.find?_append]
      have hmiss : (s.token == t) = false := by
        rw [beq_eq_false_iff_ne]
        exact fun h => ht h.symm
      simp [List.find?_cons, hmiss, Option.or_none]

theorem storeFind_eq_some (st : Store) (t : String) (snap : Session)
    (h : storeFind st t = some snap) : (t, snap) ∈ st := by
  unfold storeFind at h
  obtain ⟨pr, hfind, hsnd⟩ := Option.map_eq_some'.mp h
  have hpred := List.find?_some (p := fun q : String × Session => q.1 == t) hfind
  have hkey : pr.1 = t := beq_iff_eq.mp hpred
  have hmem := List.mem_of_find?_eq_some hfind
  have hpr : pr = (t, snap) := by
    cases pr
    simp only at hkey hsnd
    rw [hkey, hsnd]
  rw [hpr] at hmem
  exact hmem

theorem storeFind_entry (st : Store) (k : String) (v : Session)
    (hnd : (st.map (fun p => p.1)).Nodup) (hmem : (k, v) ∈ st) :
    storeFind st k = some v := by
  induction st with
  | nil => simp at hmem
  | cons p l ih =>
    rw [List.map_cons] at hnd
    have hnotin := (List.nodup_cons.mp hnd).1
    have hnd2 := (List.nodup_cons.mp hnd).2
    rcases List.mem_cons.mp hmem with hEq | hTail
    · rw [← hEq, storeFind_cons]
      simp
    · have hk : k ∈ l.map (fun p => p.1) := List.mem_map.mpr ⟨(k, v), hTail, rfl⟩
      have hne : (p.1 == k) = false := by
        rw [beq_eq_false_iff_ne]
        intro hpk
        rw [hpk] at hnotin
        exact hnotin hk
      rw [storeFind_cons, if_neg (by simp [hne])]
      exact ih hnd2 hTail

theorem storeFind_wf_empty (st : Store) (hwf : StoreWF st) : storeFind st "" = none := by
  cases h : storeFind st "" with
  | none => rfl
  | some snap =>
    have := (hwf.1 ("", snap) (storeFind_eq_some st "" snap h)).1
    simp at this

theorem sessionExists_ne_empty {st : Store} {g : String}
    (h : SessionExists st g = true) : g ≠ "" := by
  intro hg
  rw [hg] at h
  simp [SessionExists, String.isEmpty] at h

theorem sessionExists_iff (st : Store) (g : String) :
    SessionExists st g = true ↔ g ≠ "" ∧ (storeFind st g).isSome = true := by
  unfold SessionExists
  by_cases hg : g = ""
  · subst hg
    simp [String.isEmpty]
  · rw [if_neg (by rw [isEmpty_false_of_ne hg]; exact Bool.false_ne_true)]
    simp [hg]

theorem keys_map_replace (l : Store) (tok : String) (s : Session) :
    ((l.map (fun p => if p.1 == tok then (tok, s) else p)).map (fun p => p.1))
      = l.map (fun p => p.1) := by
  induction l with
  | nil => rfl
  | cons p l ih =>
    rw [List.map_cons, List.map_cons, List.map_cons]
    by_cases hp : p.1 = tok
    · have hb : (p.1 == tok) = true := beq_iff_eq.mpr hp
      have hf : (if p.1 == tok then (tok, s) else p) = (tok, s) := by simp [hb]
      rw [hf, ih]
      simp [hp]
    · have hb : (p.1 == tok) = false := beq_eq_false_iff_ne.mpr hp
      have hf : (if p.1 == tok then (tok, s) else p) = p := by simp [hb]
      rw [hf, ih]

theorem storeWF_save (st : Store) (s : Session) (hwf : StoreWF st) :
    StoreWF (SaveSession st s) := by
  by_cases hs : s.token = ""
  · rw [storeFind_save_empty st s hs]
    exact hwf
  · unfold SaveSession
    rw [isEmpty_false_of_ne hs, if_neg Bool.false_ne_true]
    by_cases hpres : (st.find? (fun p => p.1 == s.token)).isSome = true
    · rw [if_pos hpres]
      constructor
      · intro q hq
        obtain ⟨p, hp, hfq⟩ := List.mem_map.mp hq
        by_cases hptok : p.1 = s.token
        · have hb : (p.1 == s.token) = true := beq_iff_eq.mpr hptok
          have : q = (s.token, s) := by rw [← hfq]; simp [hb]
          rw [this]
          exact ⟨hs, rfl⟩
        · have hb : (p.1 == s.token) = false := beq_eq_false_iff_ne.mpr hptok
          have : q = p := by rw [← hfq]; simp [hb]
          rw [this]
          exact hwf.1 p hp
      · rw [keys_map_replace]
        exact hwf.2
    · rw [if_neg hpres]
      constructor
      · intro q hq
        rcases List.mem_append.mp hq with hIn | hNew
        · exact hwf.1 q hIn
        · have : q = (s.token, s) := by simpa using hNew
          rw [this]
          exact ⟨hs, rfl⟩
      · rw [List.map_append]
        rw [List.nodup_append]
        refine ⟨hwf.2, by simp, ?_⟩
        intro k hk hk2
        have hks : k = s.token := by simpa using hk2
        obtain ⟨p, hp, hfp⟩ := List.mem_map.mp hk
        have hnone : st.find? (fun p => p.1 == s.token) = none :=
          Option.not_isSome_iff_eq_none.mp hpres
        have := List.find?_eq_none.mp hnone p hp
        apply this
        rw [hfp, hks]
        simp

theorem storeWF_delete (st : Store) (s : Session) (hwf : StoreWF st) :
    StoreWF (DeleteSession st s) := by
  unfold DeleteSession
  by_cases hs : s.token.isEmpty
  · rw [if_pos hs]
    exact hwf
  · rw [if_neg hs]
    constructor
    · intro p hp
      exact hwf.1 p (List.mem_filter.mp hp).1
    · exact List.Nodup.sublist
        (List.Sublist.map (fun p => p.1) (List.filter_sublist st)) hwf.2

theorem foldClose_none (l : List (String × Session)) :
    ∀ (acc : Store) (t : String), storeFind acc t = none →
      storeFind (l.foldl (fun acc p => (Session.Close p.2 acc).2.1) acc) t = none := by
  induction l with
  | nil =>
    intro acc t h
    simpa using h
  | cons p l ih =>
    intro acc t h
    rw [List.foldl_cons]
    exact ih _ t (storeFind_delete_none acc p.2 t h)

theorem foldClose_hit (l : List (String × Session)) :
    ∀ (acc : Store) (t : String), t ≠ "" → (∃ p ∈ l, p.2.token = t) →
      storeFind (l.foldl (fun acc p => (Session.Close p.2 acc).2.1) acc) t = none := by
  induction l with
  | nil =>
    intro acc t ht hex
    obtain ⟨p, hp, _⟩ := hex
    simp at hp
  | cons p l ih =>
    intro acc t ht hex
    rw [List.foldl_cons]
    by_cases hp : p.2.token = t
    · apply foldClose_none
      have hd := storeFind_delete_self acc p.2 (by rw [hp]; exact ht)
      rw [hp] at hd
      exact hd
    · obtain ⟨q, hq, hqt⟩ := hex
      rcases List.mem_cons.mp hq with hEq | hTail
      · exact absurd (hEq ▸ hqt) hp
      · exact ih _ t ht ⟨q, hTail, hqt⟩

theorem foldClose_keep (l : List (String × Session)) :
    ∀ (acc : Store) (t : String), (∀ p ∈ l, p.2.token ≠ t) →
      storeFind (l.foldl (fun acc p => (Session.Close p.2 acc).2.1) acc) t
        = storeFind acc t := by
  induction l with
  | nil =>
    intro acc t _
    rfl
  | cons p l ih =>
    intro acc t h
    rw [List.foldl_cons]
    have h1 := ih (DeleteSession acc p.2) t (fun q hq => h q (List.mem_cons.mpr (Or.inr hq)))
    have h2 := storeFind_delete_ne acc p.2 t
      (fun hc => h p (List.mem_cons_self p l) hc.symm)
    exact h1.trans h2

theorem foldClose_wf (l : List (String × Session)) :
    ∀ (acc : Store), StoreWF acc →
      StoreWF (l.foldl (fun acc p => (Session.Close p.2 acc).2.1) acc) := by
  induction l with
  | nil =>
    intro acc h
    exact h
  | cons p l ih =>
    intro acc h
    rw [List.foldl_cons]
    exact ih _ (storeWF_delete acc p.2 h)

theorem open_mono_none (gens : List String) :
    ∀ (s : Session) (st : Store) (now : Int) (a : Session) (b : Store) (t : String),
      SimpleSession.Open s st now gens = some (a, b) →
      storeFind st t = none → t ≠ a.token → storeFind b t = none := by
  induction gens with
  | nil =>
    intro s st now a b t h _ _
    simp [SimpleSession.Open] at h
  | cons g rest ih =>
    intro s st now a b t h hn hne
    simp only [SimpleSession.Open] at h
    by_cases hex : SessionExists (Session.Close s st).2.1 g = true
    · rw [if_pos hex] at h
      exact ih _ _ now a b t h (storeFind_delete_none st s t hn) hne
    · rw [if_neg hex] at h
      simp only [SimpleSession.Update] at h
      have h3 := Option.some.inj h
      rw [Prod.mk.injEq] at h3
      obtain ⟨ha, hb⟩ := h3
      subst ha
      subst hb
      rw [storeFind_save_ne _ _ t hne]
      exact storeFind_delete_none st s t hn

theorem open_deletes_prev (gens : List String) (s : Session) (st : Store) (now : Int)
    (a : Session) (b : Store) (hs : s.token ≠ "")
    (h : SimpleSession.Open s st now gens = some (a, b)) (hne : a.token ≠ s.token) :
    storeFind b s.token = none := by
  cases gens with
  | nil => simp [SimpleSession.Open] at h
  | cons g rest =>
    simp only [SimpleSession.Open] at h
    by_cases hex : SessionExists (Session.Close s st).2.1 g = true
    · rw [if_pos hex] at h
      exact open_mono_none rest _ _ now a b s.token h
        (storeFind_delete_self st s hs) (Ne.symm hne)
    · rw [if_neg hex] at h
      simp only [SimpleSession.Update] at h
      have h3 := Option.some.inj h
      rw [Prod.mk.injEq] at h3
      obtain ⟨ha, hb⟩ := h3
      subst ha
      subst hb
      rw [storeFind_save_ne _ _ s.token (Ne.symm hne)]
      exact storeFind_delete_self st s hs

theorem splitStd_shape (d : Char) (cs : List Char) :
    ∃ p ps, splitStd d cs = p :: ps := by
  induction cs with
  | nil => exact ⟨[], [], rfl⟩
  | cons c cs ih =>
    obtain ⟨p, ps, h⟩ := ih
    by_cases hc : c = d
    · refine ⟨[], p :: ps, ?_⟩
      simp only [splitStd, h]
      simp [hc]
    · refine ⟨c :: p, ps, ?_⟩
      simp only [splitStd, h]
      simp [hc]

theorem splitStd_nodelim (d : Char) (cs : List Char) (h : d ∉ cs) :
    splitStd d cs = [cs] := by
  induction cs with
  | nil => rfl
  | cons c cs ih =>
    have hc : ¬(c = d) := by
      intro hc
      exact h (by rw [hc]; exact List.mem_cons_self d cs)
    have hcs : d ∉ cs := fun hm => h (List.mem_cons.mpr (Or.inr hm))
    simp only [splitStd, ih hcs]
    simp [hc]

theorem splitStd_append (d : Char) (xs ys : List Char) (h : d ∉ xs) :
    splitStd d (xs ++ d :: ys) = xs :: splitStd d ys := by
  induction xs with
  | nil =>
    obtain ⟨p, ps, hsh⟩ := splitStd_shape d ys
    simp only [List.nil_append, splitStd, hsh]
    simp
  | cons x xs ih =>
    have hx : ¬(x = d) := by
      intro hc
      exact h (by rw [hc]; exact List.mem_cons_self d xs)
    have hxs : d ∉ xs := fun hm => h (List.mem_cons.mpr (Or.inr hm))
    simp only [List.cons_append, splitStd, List.append_eq]
    rw [ih hxs]
    simp [hx]

theorem mem_of_getLast?_helper (l : List Char) (a : Char)
    (h : l.getLast? = some a) : a ∈ l := by
  induction l with
  | nil => simp at h
  | cons c cs ih =>
    cases cs with
    | nil =>
      simp only [List.getLast?_singleton, Option.some.injEq] at h
      rw [← h]
      exact List.mem_cons_self c []
    | cons c2 cs2 =>
      rw [List.getLast?_cons_cons] at h
      exact List.mem_cons.mpr (Or.inr (ih h))

theorem joinAmp_ne_nil (d : Char) (pieces : List (List Char)) (hne : pieces ≠ [])
    (hp : ∀ p ∈ pieces, p ≠ []) : joinAmp d pieces ≠ [] := by
  cases pieces with
  | nil => exact absurd rfl hne
  | cons x rest =>
    cases rest with
    | nil => exact hp x (List.mem_cons_self x [])
    | cons y r => simp [joinAmp]

theorem splitStd_joinAmp (d : Char) (pieces : List (List Char)) (hne : pieces ≠ [])
    (hnd : ∀ p ∈ pieces, d ∉ p) : splitStd d (joinAmp d pieces) = pieces := by
  induction pieces with
  | nil => exact absurd rfl hne
  | cons x rest ih =>
    cases rest with
    | nil => exact splitStd_nodelim d x (hnd x (List.mem_cons_self x []))
    | cons y r =>
      rw [show joinAmp d (x :: y :: r) = x ++ d :: joinAmp d (y :: r) from rfl]
      rw [splitStd_append d x _ (hnd x (List.mem_cons_self x (y :: r)))]
      rw [ih (by simp) (fun p hp2 => hnd p (List.mem_cons.mpr (Or.inr hp2)))]

theorem getLast?_joinAmp (d : Char) (pieces : List (List Char)) (hne : pieces ≠ [])
    (hp : ∀ p ∈ pieces, p ≠ [] ∧ d ∉ p) :
    ¬((joinAmp d pieces).getLast? = some d) := by
  induction pieces with
  | nil => exact absurd rfl hne
  | cons x rest ih =>
    cases rest with
    | nil =>
      intro hc
      exact (hp x (List.mem_cons_self x [])).2 (mem_of_getLast?_helper x d hc)
    | cons y r =>
      intro hc
      rw [show joinAmp d (x :: y :: r) = x ++ d :: joinAmp d (y :: r) from rfl,
        List.getLast?_append_cons] at hc
      cases hJ : joinAmp d (y :: r) with
      | nil =>
        exact joinAmp_ne_nil d (y :: r) (by simp)
          (fun p hp2 => (hp p (List.mem_cons.mpr (Or.inr hp2))).1) hJ
      | cons j js =>
        rw [hJ, List.getLast?_cons_cons] at hc
        apply ih (by simp) (fun p hp2 => hp p (List.mem_cons.mpr (Or.inr hp2)))
        rw [hJ]
        exact hc

theorem granadaSplitChars_joinAmp (d : Char) (pieces : List (List Char))
    (hp : ∀ p ∈ pieces, p ≠ [] ∧ d ∉ p) :
    granadaSplitChars d (joinAmp d pieces) = pieces := by
  cases hpieces : pieces with
  | nil => simp [granadaSplitChars, joinAmp]
  | cons x rest =>
    rw [← hpieces]
    have hne : pieces ≠ [] := by rw [hpieces]; simp
    unfold granadaSplitChars
    rw [if_neg (joinAmp_ne_nil d pieces hne (fun p h2 => (hp p h2).1))]
    rw [if_neg (getLast?_joinAmp d pieces hne hp)]
    exact splitStd_joinAmp d pieces hne (fun p h2 => (hp p h2).2)

theorem str_mk_data (s : String) : String.mk s.data = s := by
  cases s
  rfl

theorem data_ne_nil_of_ne {v : String} (h : v ≠ "") : v.data ≠ [] := by
  intro hc
  apply h
  cases v
  simp only at hc
  rw [hc]

theorem pair_data (k v : String) :
    (k ++ "=" ++ v).data = k.data ++ '=' :: v.data := by
  rw [String.data_append, String.data_append]
  rw [show ("=" : String).data = ['='] from rfl, List.append_assoc]
  rfl

theorem queryOfPairs_data (pairs : List (String × String)) :
    (queryOfPairs pairs).data
      = joinAmp '&' (pairs.map (fun p => p.1.data ++ '=' :: p.2.data)) := by
  induction pairs with
  | nil => rfl
  | cons hd rest ih =>
    cases rest with
    | nil =>
      cases hd
      exact pair_data _ _
    | cons p2 r2 =>
      cases hd with
      | mk k v =>
        have hQ : queryOfPairs ((k, v) :: p2 :: r2)
            = k ++ "=" ++ v ++ "&" ++ queryOfPairs (p2 :: r2) := rfl
        have hJ : joinAmp '&' (((k, v) :: p2 :: r2).map (fun p => p.1.data ++ '=' :: p.2.data))
            = (k.data ++ '=' :: v.data)
              ++ '&' :: joinAmp '&' ((p2 :: r2).map (fun p => p.1.data ++ '=' :: p.2.data)) := rfl
        rw [hQ, hJ, ← ih]
        rw [String.data_append, String.data_append, pair_data]
        rw [show ("&" : String).data = ['&'] from rfl, List.append_assoc]
        rfl

theorem granadaSplit_pair (k v : String) (hk : '=' ∉ k.data) (hv : '=' ∉ v.data)
    (hvne : v ≠ "") : granadaSplit (k ++ "=" ++ v) '=' = [k, v] := by
  have hlast : ¬((k.data ++ '=' :: v.data).getLast? = some '=') := by
    rw [List.getLast?_append_cons]
    cases hv' : v.data with
    | nil => exact absurd hv' (data_ne_nil_of_ne hvne)
    | cons c cs =>
      rw [List.getLast?_cons_cons]
      intro hc
      apply hv
      rw [hv']
      exact mem_of_getLast?_helper (c :: cs) '=' hc
  unfold granadaSplit
  rw [pair_data]
  unfold granadaSplitChars
  rw [if_neg (by simp : ¬(k.data ++ '=' :: v.data = []))]
  rw [if_neg hlast]
  rw [splitStd_append '=' k.data v.data hk, splitStd_nodelim '=' v.data hv]
  simp [str_mk_data]

theorem granadaSplit_queryOfPairs (pairs : List (String × String))
    (hwf : ∀ p ∈ pairs, QueryPairWF p) :
    granadaSplit (queryOfPairs pairs) '&' = pairs.map (fun p => p.1 ++ "=" ++ p.2) := by
  have hp : ∀ q ∈ pairs.map (fun p => p.1.data ++ '=' :: p.2.data), q ≠ [] ∧ '&' ∉ q := by
    intro q hq
    obtain ⟨p, hp2, hfq⟩ := List.mem_map.mp hq
    have hw := hwf p hp2
    constructor
    · rw [← hfq]
      simp
    · rw [← hfq]
      intro hmem
      rcases List.mem_append.mp hmem with hk | hv2
      · exact hw.1 hk
      · rcases List.mem_cons.mp hv2 with hEq | hv3
        · exact absurd hEq (by decide)
        · exact hw.2.2.1 hv3
  unfold granadaSplit
  rw [queryOfPairs_data pairs]
  rw [granadaSplitChars_joinAmp '&' _ hp]
  rw [List.map_map]
  apply List.map_congr_left
  intro p hp2
  show String.mk (p.1.data ++ '=' :: p.2.data) = p.1 ++ "=" ++ p.2
  rw [← pair_data, str_mk_data]

theorem scan_map_pairs (label : String) (pairs : List (String × String))
    (hwf : ∀ p ∈ pairs, QueryPairWF p) :
    scanQueryPairsFromEnd label (pairs.map (fun p => p.1 ++ "=" ++ p.2))
      = (pairs.reverse.find? (fun p => p.1 == label)).map (fun p => p.2) := by
  induction pairs with
  | nil => rfl
  | cons p rest ih =>
    have hwfp := hwf p (List.mem_cons_self p rest)
    have hwfr : ∀ q ∈ rest, QueryPairWF q :=
      fun q hq => hwf q (List.mem_cons.mpr (Or.inr hq))
    rw [List.map_cons]
    simp only [scanQueryPairsFromEnd]
    rw [ih hwfr]
    rw [List.reverse_cons, List.find?_append]
    cases hrf : rest.reverse.find? (fun q => q.1 == label) with
    | some q => rfl
    | none =>
      rw [granadaSplit_pair p.1 p.2 hwfp.2.1 hwfp.2.2.2.1 hwfp.2.2.2.2]
      cases hpl : (p.1 == label) with
      | true => simp [List.find?_cons, hpl, Option.none_or]
      | false => simp [List.find?_cons, hpl, Option.none_or]

theorem delete_delete (st : Store) (s s2 : Session) (h : s2.token = s.token) :
    DeleteSession (DeleteSession st s) s2 = DeleteSession st s := by
  unfold DeleteSession
  rw [h]
  by_cases hs : s.token.isEmpty
  · rw [if_pos hs, if_pos hs]
  · rw [if_neg hs, if_neg hs, List.filter_filter]
    apply List.filter_congr
    intro p _
    rw [Bool.and_self]

theorem find?_map_replace_self_gen {α : Type} (l : List (String × α)) (tok : String)
    (x : α) (hpres : (l.find? (fun p => p.1 == tok)).isSome = true) :
    (l.map (fun p => if p.1 == tok then (tok, x) else p)).find? (fun p => p.1 == tok)
      = some (tok, x) := by
  induction l with
  | nil => simp at hpres
  | cons p l ih =>
    rw [List.map_cons]
    by_cases hp : p.1 = tok
    · have hb : (p.1 == tok) = true := beq_iff_eq.mpr hp
      have hf : (if p.1 == tok then (tok, x) else p) = (tok, x) := by simp [hb]
      rw [hf, List.find?_cons]
      simp
    · have hb : (p.1 == tok) = false := beq_eq_false_iff_ne.mpr hp
      have hf : (if p.1 == tok then (tok, x) else p) = p := by simp [hb]
      have hpres2 : (l.find? (fun p => p.1 == tok)).isSome = true := by
        rw [List.find?_cons] at hpres
        simpa [hb] using hpres
      rw [hf, List.find?_cons, hb]
      exact ih hpres2

theorem storageFind_save_self (st : StorageStore) (s : StorageSession)
    (hs : s.session.token ≠ "") :
    storageFind (StorageSaveSession st s) s.session.token = some s := by
  unfold StorageSaveSession
  rw [isEmpty_false_of_ne hs, if_neg Bool.false_ne_true]
  by_cases hpres : (st.find? (fun p => p.1 == s.session.token)).isSome = true
  · rw [if_pos hpres]
    unfold storageFind
    rw [find?_map_replace_self_gen st s.session.token s hpres]
    rfl
  · rw [if_neg hpres]
    unfold storageFind
    rw [List.find?_append, Option.not_isSome_iff_eq_none.mp hpres]
    simp [List.find?_cons]

/-- C1 counterexample: the claim fails for the base `Session` class.  On a
concrete session with token "Z" over the empty store, `Session::Update` sets
`update_time` to now but never asks the handler to save (the `SaveSession`
call is commented out in session.cc), so no snapshot keyed by the token
appears in the store. -/
theorem c1_base_update_counterexample :
    (Session.Update exStale ([] : Store) 400).1.update_time = 400
    ∧ (Session.Update exStale ([] : Store) 400).2 = ([] : Store)
    ∧ storeFind (Session.Update exStale ([] : Store) 400).2 exStale.token = none := by
  decide

/-- C1 (amended): `Update()` always sets `update_time` to the current time;
`SimpleSession::Update` and `StorageSession::Update` additionally save an
immutable snapshot of the current state (payload included) keyed by the
session's token, but the base `Session::Update` leaves the store untouched
(its save call is commented out in the source). -/
theorem c1_update_amended (s : Session) (st : Store) (ss : StorageSession)
    (sst : StorageStore) (now : Int) (hs : s.token ≠ "")
    (hss : ss.session.token ≠ "") :
    (Session.Update s st now).1.update_time = now
    ∧ (Session.Update s st now).2 = st
    ∧ (SimpleSession.Update s st now).1.update_time = now
    ∧ storeFind (SimpleSession.Update s st now).2 s.token
        = some {s with update_time := now}
    ∧ (StorageSession.Update ss sst now).1.session.update_time = now
    ∧ storageFind (StorageSession.Update ss sst now).2 ss.session.token
        = some {ss with session := {ss.session with update_time := now}} := by
  refine ⟨rfl, rfl, rfl, ?_, rfl, ?_⟩
  · exact storeFind_save_self st {s with update_time := now} hs
  · exact storageFind_save_self sst {ss with session := {ss.session with update_time := now}} hss

/-- Witness for C1's amended theorem at a concrete session and store. -/
theorem c1_update_amended_witness :
    storeFind (SimpleSession.Update exStale exStore 400).2 exStale.token
      = some {exStale with update_time := 400} :=
  (c1_update_amended exStale exStore exStorage ([] : StorageStore) 400
    (by decide) (by decide)).2.2.2.1

/-- C2 counterexample: a concrete collision run of `Open()`.  The store holds
`exVictim` under token "X"; a fresh session opens with generated tokens
"X" then "Y".  The collision retry re-runs `Open()`, whose leading `Close()`
deletes the pre-existing entry under the colliding token "X", so that entry
is NOT still present after `Open()` returns, contrary to the claim. -/
theorem c2_open_collision_counterexample :
    storeFind exStore "X" = some exVictim
    ∧ SimpleSession.Open exFresh exStore 100 ["X", "Y"] = some (exOpened, exOpenedStore)
    ∧ storeFind exOpenedStore "X" = none := by
  decide

/-- C2 (amended): on a token collision `Open()` retries by re-running the
whole opening process, and the retry's leading `Close()` deletes the
pre-existing store entry under the colliding token; whenever the retry run
finishes with a final token different from the colliding one, the colliding
token is absent from the resulting store. -/
theorem c2_open_collision_amended (s : Session) (st : Store) (g : String)
    (rest : List String) (now : Int) (a : Session) (b : Store)
    (hrun : SimpleSession.Open s st now (g :: rest) = some (a, b))
    (hcol : SessionExists (Session.Close s st).2.1 g = true)
    (hne : a.token ≠ g) :
    storeFind b g = none := by
  simp only [SimpleSession.Open] at hrun
  rw [if_pos hcol] at hrun
  exact open_deletes_prev rest _ _ now a b (sessionExists_ne_empty hcol) hrun hne

/-- Witness for C2's amended theorem on the concrete collision run. -/
theorem c2_open_collision_amended_witness : storeFind exOpenedStore "X" = none :=
  c2_open_collision_amended exFresh exStore "X" ["Y"] 100 exOpened exOpenedStore
    (by decide) (by decide) (by decide)

/-- C5: `IsValid() = !IsTimedOut(0)`, `IsGarbage() = !IsValid()`;
`IsTimedOut(extra)` is false whenever `session_timeout < 0` (shown for the
-1 case and, by the t-cast, every non-negative timeout follows the strict
`(now - update_time) > session_timeout + extra` comparison); with
`session_timeout = 5` a session updated 6 seconds ago is timed out and one
updated 4 seconds ago is not. -/
theorem c5_validity_predicates (s : Session) (now extra : Int) (t : Nat) :
    Session.IsValid s now = !(Session.IsTimedOut s 0 now)
    ∧ Session.IsGarbage s now = !(Session.IsValid s now)
    ∧ Session.IsTimedOut {s with session_timeout := -1} extra now = false
    ∧ Session.IsTimedOut {s with session_timeout := (t : Int)} extra now
        = decide (now - s.update_time > (t : Int) + extra)
    ∧ Session.IsTimedOut {s with update_time := now - 6, session_timeout := 5} 0 now = true
    ∧ Session.IsTimedOut {s with update_time := now - 4, session_timeout := 5} 0 now = false := by
  refine ⟨rfl, rfl, rfl, ?_, ?_, ?_⟩
  · unfold Session.IsTimedOut util.time.is_timedout
    rw [if_neg (not_lt.mpr (Int.natCast_nonneg t))]
  · unfold Session.IsTimedOut util.time.is_timedout
    rw [if_neg (by norm_num : ¬((5 : Int) < 0))]
    simp only [decide_eq_true_eq]
    omega
  · unfold Session.IsTimedOut util.time.is_timedout
    rw [if_neg (by norm_num : ¬((5 : Int) < 0))]
    simp only [decide_eq_false_iff_not]
    omega

/-- C7 counterexample: the query flow of `Session::LoadSession(http_request&)`
does NOT percent-decode.  For the query "b=%41" with label "b" the code
extracts the raw value "%41", while the percent-decoded value would be "A". -/
theorem c7_no_percent_decoding_counterexample :
    extractTokenFromQuery "b=%41" "b" = some "%41"
    ∧ percentDecode "%41" = "A"
    ∧ ("%41" : String) ≠ "A" := by
  decide

/-- C7 (amended): the query flow obtains the token by splitting the raw
query string on `&` and `=` and selecting the value whose key equals the
token label, WITHOUT percent-decoding; for "a=1&b=2" with label "b" it
delegates to `LoadSession("2")`, and with label "c" it returns failure. -/
theorem c7_query_flow_amended (st : Store) (now : Int) :
    Session.LoadSessionFromRequest exQuerySessionB st exRequest now
      = Session.LoadSessionByToken exQuerySessionB st "2" now
    ∧ Session.LoadSessionFromRequest exQuerySessionC st exRequest now
      = (false, exQuerySessionC, st)
    ∧ extractTokenFromQuery "a=1&b=2" "b" = some "2"
    ∧ extractTokenFromQuery "a=1&b=2" "c" = none := by
  exact ⟨rfl, rfl, by decide, by decide⟩

/-- C9: a second `Close()` on a session whose store entry is already gone
re-runs the close callbacks with the serialized state and clears the roles
again, while the handler's delete is a silent no-op on the store. -/
theorem c9_double_close (s : Session) (st : Store) :
    Session.Close (Session.Close s st).1 (Session.Close s st).2.1
      = ((Session.Close s st).1, (Session.Close s st).2.1,
         [SessionEvent.callbacksCalled (Session.Close s st).1,
          SessionEvent.rolesCleared]) := by
  unfold Session.Close
  rw [delete_delete st s {s with roles := []} rfl]

/-- C10: the query flow scans the `&`-separated pairs from the last to the
first and uses the first hit, so when the token label occurs several times
the value of the LAST occurrence in the query string wins. -/
theorem c10_last_query_occurrence (pairs : List (String × String)) (label : String)
    (k v : String) (hwf : ∀ p ∈ pairs, QueryPairWF p)
    (hlast : pairs.reverse.find? (fun p => p.1 == label) = some (k, v)) :
    extractTokenFromQuery (queryOfPairs pairs) label = some v := by
  unfold extractTokenFromQuery
  rw [granadaSplit_queryOfPairs pairs hwf]
  rw [scan_map_pairs label pairs hwf, hlast]
  rfl

/-- Witness for C10 on pairs where the key "b" occurs twice. -/
theorem c10_last_query_occurrence_witness :
    extractTokenFromQuery (queryOfPairs exPairs) "b" = some "3" :=
  c10_last_query_occurrence exPairs "b" "b" "3" (by decide) (by decide)

/-- C3: on a virgin instance, `Session::LoadSession(token)` succeeds exactly
when the handler holds a valid snapshot for the token; on success the
instance adopts the snapshot's state and `Update()` runs (setting the update
time); in every other case it returns failure and leaves both the instance
and the store unmutated. -/
theorem c3_load_session_by_token (s : Session) (st : Store) (t : String)
    (now : Int) (hs : s.token = "") (hwf : StoreWF st) :
    ((Session.LoadSessionByToken s st t now).1 = true ↔
      ∃ snap, storeFind st t = some snap ∧ snap.IsValid now = true)
    ∧ ((Session.LoadSessionByToken s st t now).1 = false →
        (Session.LoadSessionByToken s st t now).2.1 = s
        ∧ (Session.LoadSessionByToken s st t now).2.2 = st)
    ∧ (∀ snap, storeFind st t = some snap → snap.IsValid now = true →
        Session.LoadSessionByToken s st t now
          = (true, {snap with update_time := now}, st)) := by
  by_cases ht : t = ""
  · have hte : t.isEmpty = true := by rw [ht]; rfl
    have hf0 : storeFind st t = none := by
      rw [ht]
      exact storeFind_wf_empty st hwf
    have hrun : Session.LoadSessionByToken s st t now = (false, s, st) := by
      unfold Session.LoadSessionByToken
      rw [if_pos hte]
    rw [hrun]
    refine ⟨?_, fun _ => ⟨rfl, rfl⟩, ?_⟩
    · constructor
      · intro hc
        exact Bool.noConfusion hc
      · rintro ⟨snap, hfa, _⟩
        rw [hf0] at hfa
        exact Option.noConfusion hfa
    · intro snap hfa _
      rw [hf0] at hfa
      exact Option.noConfusion hfa
  · have hte : t.isEmpty = false := isEmpty_false_of_ne ht
    have hse : s.token.isEmpty = true := by rw [hs]; rfl
    cases hfind : storeFind st t with
    | none =>
      have hrun : Session.LoadSessionByToken s st t now = (false, s, st) := by
        unfold Session.LoadSessionByToken SharedMapSessionHandler.LoadSession
        simp only [hte, Bool.false_eq_true, if_false, hfind, hse,
          eq_self_iff_true, if_true]
      rw [hrun]
      refine ⟨?_, fun _ => ⟨rfl, rfl⟩, ?_⟩
      · constructor
        · intro hc
          exact Bool.noConfusion hc
        · rintro ⟨snap, hfa, _⟩
          exact Option.noConfusion hfa
      · intro snap hfa _
        exact Option.noConfusion hfa
    | some snap =>
      have hmem := storeFind_eq_some st t snap hfind
      have htok : snap.token = t := (hwf.1 (t, snap) hmem).2
      by_cases hvalid : snap.IsValid now = true
      · have hsne : snap.token.isEmpty = false := by rw [htok]; exact hte
        have hrun : Session.LoadSessionByToken s st t now
            = (true, {snap with update_time := now}, st) := by
          unfold Session.LoadSessionByToken SharedMapSessionHandler.LoadSession
          simp only [hte, Bool.false_eq_true, if_false, hfind, hvalid,
            eq_self_iff_true, if_true, hsne, Session.Update]
        rw [hrun]
        refine ⟨⟨fun _ => ⟨snap, rfl, hvalid⟩, fun _ => rfl⟩, ?_, ?_⟩
        · intro hc
          exact Bool.noConfusion hc
        · intro snap2 hfa hv2
          obtain rfl : snap = snap2 := Option.some.inj hfa
          rfl
      · have hvf : snap.IsValid now = false := by
          cases hv : snap.IsValid now
          · rfl
          · exact absurd hv hvalid
        have hrun : Session.LoadSessionByToken s st t now = (false, s, st) := by
          unfold Session.LoadSessionByToken SharedMapSessionHandler.LoadSession
          simp only [hte, Bool.false_eq_true, if_false, hfind, hvf, hse,
            eq_self_iff_true, if_true]
        rw [hrun]
        refine ⟨?_, fun _ => ⟨rfl, rfl⟩, ?_⟩
        · constructor
          · intro hc
            exact Bool.noConfusion hc
          · rintro ⟨snap2, hfa, hv2⟩
            obtain rfl : snap = snap2 := Option.some.inj hfa
            exact absurd hv2 hvalid
        · intro snap2 hfa hv2
          obtain rfl : snap = snap2 := Option.some.inj hfa
          exact absurd hv2 hvalid

/-- Witness for C3: loading the stored valid session "X" into a virgin
instance succeeds and adopts the snapshot with a refreshed update time. -/
theorem c3_load_session_by_token_witness :
    Session.LoadSessionByToken exFresh exStore "X" 100
      = (true, {exVictim with update_time := 100}, exStore) :=
  (c3_load_session_by_token exFresh exStore "X" 100 rfl (by decide)).2.2
    exVictim (by decide) (by decide)

/-- C4: one `CleanSessions()` sweep removes exactly the entries whose
snapshot is garbage at sweep time; every other entry is still found
unchanged. -/
theorem c4_clean_sessions (st : Store) (now : Int) (hwf : StoreWF st)
    (t : String) :
    storeFind (SharedMapSessionHandler.CleanSessions st now) t
      = (storeFind st t).bind
          (fun s => if s.IsGarbage now then none else some s) := by
  unfold SharedMapSessionHandler.CleanSessions
  cases hf : storeFind st t with
  | none =>
    simp only [Option.none_bind]
    exact foldClose_none _ st t hf
  | some s =>
    have hmem := storeFind_eq_some st t s hf
    have htpair := hwf.1 (t, s) hmem
    by_cases hg : s.IsGarbage now = true
    · simp only [Option.some_bind, hg, if_pos rfl]
      apply foldClose_hit
      · exact htpair.1
      · exact ⟨(t, s), List.mem_filter.mpr ⟨hmem, hg⟩, htpair.2⟩
    · have hgf : s.IsGarbage now = false := by
        cases hgv : s.IsGarbage now
        · rfl
        · exact absurd hgv hg
      simp only [Option.some_bind, hgf, if_neg Bool.false_ne_true]
      refine (foldClose_keep _ st t ?_).trans hf
      intro p hp hpt
      have hpmem := (List.mem_filter.mp hp).1
      have hpg := (List.mem_filter.mp hp).2
      have hpkey : p.1 = t := by rw [← (hwf.1 p hpmem).2, hpt]
      have hpfind : storeFind st p.1 = some p.2 :=
        storeFind_entry st p.1 p.2 hwf.2 (by rw [Prod.mk.eta]; exact hpmem)
      rw [hpkey, hf] at hpfind
      have hps : p.2 = s := Option.some.inj hpfind.symm
      rw [hps] at hpg
      rw [hgf] at hpg
      exact Bool.false_ne_true hpg

/-- Witness for C4 on a store with one live and one stale entry: the stale
entry "Z" is swept away exactly as the garbage predicate dictates. -/
theorem c4_clean_sessions_witness :
    storeFind (SharedMapSessionHandler.CleanSessions exSweepStore 400) "Z"
      = (storeFind exSweepStore "Z").bind
          (fun s => if s.IsGarbage 400 then none else some s) :=
  c4_clean_sessions exSweepStore 400 (by decide) "Z"

/-- C6: with the `session_token_support` property absent, the code does NOT
fall back to the cookie flow.  `DEFAULT_SESSIONS_TOKEN_SUPPORT[0]` is
`entity_keys::session_token_support` — the configuration key name — which
matches none of cookie/query/json, so on the concrete request carrying a
valid session cookie the call degenerates to the query/json path and returns
failure, whereas the same call with the support explicitly set to `cookie`
loads the stored session.  (The header documents the default as one of
`cookie || query || json`, which the code contradicts.) -/
theorem c6_default_token_support_bug :
    Session.LoadSessionWithResponse exFresh exStore exRequest 100 ["G"]
      = some (false,
          {exFresh with session_token_support := entity_keys.session_token_support},
          exStore, [])
    ∧ entity_keys.session_token_support ≠ entity_keys.session_cookie
    ∧ Session.LoadSessionWithResponse exCookieSession exStore exRequest 100 ["G"]
      = some (true, exVictim, exStore, []) := by
  decide

/-- C8: the store invariant (non-empty unique keys, each key holding the
session carrying that token) is preserved by `SaveSession`, `DeleteSession`
and the `CleanSessions` sweep; saving a session with an empty token is a
no-op; saving under an existing token replaces the entry, so after two
sequential saves for the same token only the most recent snapshot is
visible. -/
theorem c8_store_invariant (st : Store) (s0 s s2 : Session) (now : Int)
    (h0 : s0.token = "") (hwf : StoreWF st) (hs : s.token ≠ "")
    (h2 : s2.token = s.token) :
    SaveSession st s0 = st
    ∧ StoreWF (SaveSession st s)
    ∧ StoreWF (DeleteSession st s)
    ∧ StoreWF (SharedMapSessionHandler.CleanSessions st now)
    ∧ storeFind (SaveSession st s) s.token = some s
    ∧ storeFind (SaveSession (SaveSession st s) s2) s.token = some s2 := by
  refine ⟨storeFind_save_empty st s0 h0, storeWF_save st s hwf,
    storeWF_delete st s hwf, ?_, storeFind_save_self st s hs, ?_⟩
  · unfold SharedMapSessionHandler.CleanSessions
    exact foldClose_wf _ st hwf
  · have hsv := storeFind_save_self (SaveSession st s) s2 (by rw [h2]; exact hs)
    rw [h2] at hsv
    exact hsv

/-- Witness for C8 on the concrete store `exStore`. -/
theorem c8_store_invariant_witness :
    SaveSession exStore exFresh = exStore
    ∧ StoreWF (SaveSession exStore exStale)
    ∧ StoreWF (DeleteSession exStore exStale)
    ∧ StoreWF (SharedMapSessionHandler.CleanSessions exStore 400)
    ∧ storeFind (SaveSession exStore exStale) exStale.token = some exStale
    ∧ storeFind (SaveSession (SaveSession exStore exStale) exStale2) exStale.token
        = some exStale2 :=
  c8_store_invariant exStore exFresh exStale exStale2 400 rfl (by decide)
    (by decide) rfl

end Granada
